import Mathlib

/-!
Verification of the `encodingbuf` streaming transcoder.

The repository holds two variants of the same design: `src/reader.rs`
(`CodecReadBuffer`, built on the external `encoding_rs` library) and the
older `src/lib.rs` (`EncodingToUtf8Reader`, built on `chardet` +
`encoding`).  We embed the buffering logic of both shallowly:

* The underlying byte source is a `List Nat` of the bytes still to be
  delivered; `Read::read` on a byte slice copies `min (buffer length)
  (bytes remaining)` bytes, which is the behaviour of the sources used
  throughout the repository (in-memory slices).  Source I/O failures are
  not modelled: the claims under study concern short reads and
  end-of-stream, which a list models exactly.
* The external stateful decoder (`encoding_rs::Decoder` in
  no-replacement, no-BOM-handling mode) is modelled as a byte-level
  state machine `ByteDecoder`: a start state and a step function that
  consumes one byte and either extends the decoded UTF-8 output or
  reports a malformed sequence.  This matches the library contract the
  code relies on: with `last = false` and ample output capacity the
  decoder consumes its whole input, carrying a partial multi-byte
  character in its internal state, and on malformed input it stops and
  reports how many bytes were read.  The code allocates
  `input.len() * 4` bytes of output capacity, which is always enough
  for one call (at most 4 output bytes per input byte including any
  carried partial character), so `OutputFull` never occurs and is not
  modelled.
* A concrete instance `utf8Decoder` embeds the UTF-8 decoder of that
  library (strict range checks on second bytes, no replacement, no BOM
  stripping) and is used to run the pipeline on concrete inputs.

Machine integers: all byte and length arithmetic in the source stays far
below any overflow boundary, so bytes and sizes are plain `Nat`.
-/

namespace EncodingBuf

/-- Errors surfaced by the transcoder, mirroring the `io::Error` values
built in `src/reader.rs` and `src/lib.rs`; each constructor carries the
data interpolated into the corresponding `format!` string. -/
inductive IOError where
  | unrecognizedEncoding (name : String)
  | detectionFailed
  | malformedInput (bytes : List Nat) (pos : Nat)
  | inputDecodingError (inner : IOError)
  | fuelExhausted
deriving DecidableEq, Repr

/-- Lowercase hex digit of a number below 16, as in Rust `{:x?}` debug
formatting. -/
def hexDigit (n : Nat) : Char :=
  if n < 10 then Char.ofNat (48 + n) else Char.ofNat (87 + n)

/-- Hex rendering of one byte, no zero padding, as Rust `{:x?}` prints a
`u8`. -/
def hexByte (n : Nat) : String :=
  if n < 16 then String.singleton (hexDigit n)
  else String.singleton (hexDigit (n / 16)) ++ String.singleton (hexDigit (n % 16))

/-- Rendering of a byte list the way Rust debug-formats a `&[u8]` with
`{:x?}`. -/
def hexList (bytes : List Nat) : String :=
  "[" ++ String.intercalate ", " (bytes.map hexByte) ++ "]"

/-- The message text of each error, following the `format!` calls in the
source. -/
def IOError.message : IOError → String
  | .unrecognizedEncoding name => "Unrecognized input encoding name: " ++ name
  | .detectionFailed => "Failed input encoding detection"
  | .malformedInput bytes pos =>
      "Malformed input. " ++ hexList bytes ++ ", position " ++ toString pos ++ "."
  | .inputDecodingError e => "Input decoding error: " ++ e.message
  | .fuelExhausted => "fuel exhausted"

/-- Model of an external stateful decoder bound to one encoding
(`encoding_rs::Decoder` in no-replacement mode): a start state and a
byte-level step.  `step s b = none` means byte `b` is malformed in state
`s`; `some (s2, out)` means the byte was accepted, moving to state `s2`
and appending the UTF-8 bytes `out` to the decoded output. -/
structure ByteDecoder (σ : Type) where
  init : σ
  step : σ → Nat → Option (σ × List Nat)

/-- Run the decoder over a whole chunk.  On success: the final decoder
state and the decoded UTF-8 bytes.  On a malformed byte: the decoder
state reached and the number of bytes read when decoding stopped
(counting the offending byte), matching the `bytes_read` value
`encoding_rs` reports alongside `DecoderResult::Malformed`. -/
def decodeChunk {σ : Type} (d : ByteDecoder σ) (s : σ) :
    List Nat → Except (σ × Nat) (σ × List Nat)
  | [] => .ok (s, [])
  | b :: rest =>
    match d.step s b with
    | none => .error (s, 1)
    | some (s2, out) =>
      match decodeChunk d s2 rest with
      | .ok (s3, out2) => .ok (s3, out ++ out2)
      | .error (sf, k) => .error (sf, k + 1)

/-- Embedding of `decoder_helper` (src/reader.rs lines 7-20): decode the
buffered bytes without replacement; on `Malformed` build an error
carrying the whole input chunk and the stop offset, otherwise return the
decoded string.  The mutated decoder state is returned alongside, since
the Rust decoder is updated in place in both cases. -/
def decoderHelper {σ : Type} (d : ByteDecoder σ) (s : σ) (input : List Nat) :
    Except IOError (List Nat) × σ :=
  match decodeChunk d s input with
  | .ok (sNew, decoded) => (.ok decoded, sNew)
  | .error (sNew, bytes_read) => (.error (.malformedInput input bytes_read), sNew)

/-- State of `CodecReadBuffer` (src/reader.rs lines 22-28).  `inner` is
the bytes the source has not yet delivered; `decoderState` the bound
decoder's mutable state; `input_buf` the logical contents of the input
vector and `input_cap` its capacity; `output_buf` the byte content of
the decoded `String`; `output_pos` the cursor. -/
structure CodecReadBuffer (σ : Type) where
  inner : List Nat
  decoderState : σ
  input_buf : List Nat
  input_cap : Nat
  output_buf : List Nat
  output_pos : Nat
deriving DecidableEq, Repr

/-- Embedding of `CodecReadBuffer::for_encoding_with_initial_buffer`
(src/reader.rs lines 45-65).  `resolve` stands for the external
`encoding_rs::Encoding::for_label_no_replacement` table composed with
`new_decoder_without_bom_handling`; an unresolvable label yields the
"Unrecognized input encoding name" error.  The capacity of the passed
vector is given separately as `input_cap` since the model keeps only
logical contents in lists. -/
def for_encoding_with_initial_buffer {σ : Type}
    (resolve : String → Option (ByteDecoder σ)) (inner : List Nat)
    (encoding_name : String) (input_buf : List Nat) (input_cap : Nat) :
    Except IOError (ByteDecoder σ × CodecReadBuffer σ) :=
  match resolve encoding_name with
  | none => .error (.unrecognizedEncoding encoding_name)
  | some d =>
    .ok (d,
      { inner := inner
        decoderState := d.init
        input_buf := input_buf
        input_cap := input_cap
        output_buf := []
        output_pos := 0 })

/-- Embedding of `CodecReadBuffer::for_encoding_with_capacity`
(src/reader.rs lines 37-43): an empty initial vector with the requested
capacity. -/
def for_encoding_with_capacity {σ : Type}
    (resolve : String → Option (ByteDecoder σ)) (inner : List Nat)
    (encoding_name : String) (capacity : Nat) :
    Except IOError (ByteDecoder σ × CodecReadBuffer σ) :=
  for_encoding_with_initial_buffer resolve inner encoding_name [] capacity

/-- The default buffer size of the crate (src/lib.rs line 37). -/
def DEFAULT_BUF_SIZE : Nat := 4096

/-- Embedding of `CodecReadBuffer::for_encoding` (src/reader.rs lines
32-34). -/
def for_encoding {σ : Type}
    (resolve : String → Option (ByteDecoder σ)) (inner : List Nat)
    (encoding_name : String) :
    Except IOError (ByteDecoder σ × CodecReadBuffer σ) :=
  for_encoding_with_capacity resolve inner encoding_name DEFAULT_BUF_SIZE

/-- Embedding of `CodecReadBuffer::fill_input_buf` (src/reader.rs lines
67-84).  Only pulls when the input buffer is empty; otherwise a no-op
returning 0.  When pulling, the vector is resized up to its capacity
(padding with zeros), `Read::read` overwrites a prefix with
`min capacity remaining` source bytes, and the vector is resized back
down to the number of bytes actually read. -/
def fill_input_buf {σ : Type} (st : CodecReadBuffer σ) : Nat × CodecReadBuffer σ :=
  if st.input_buf.isEmpty then
    let capacity := st.input_cap
    let resized :=
      if st.input_buf.length < capacity then
        st.input_buf ++ List.replicate (capacity - st.input_buf.length) 0
      else st.input_buf
    let read_size := min resized.length st.inner.length
    let filled := st.inner.take read_size ++ resized.drop read_size
    (read_size,
      { st with
        input_buf := filled.take read_size
        inner := st.inner.drop read_size })
  else
    (0, st)

/-- Embedding of `BufRead::fill_buf` for `CodecReadBuffer`
(src/reader.rs lines 100-116).  When the cursor has reached the end of
the decoded chunk, pull and decode; a malformed chunk is wrapped in an
"Input decoding error" and returned before the input buffer is cleared
or the output buffer replaced.  The returned list is the slice
`&output_buf.as_bytes()[output_pos..]`. -/
def fill_buf {σ : Type} (d : ByteDecoder σ) (st : CodecReadBuffer σ) :
    Except IOError (List Nat) × CodecReadBuffer σ :=
  if st.output_buf.length ≤ st.output_pos then
    let st1 := (fill_input_buf st).2
    match decoderHelper d st1.decoderState st1.input_buf with
    | (.error e, sNew) =>
        (.error (.inputDecodingError e), { st1 with decoderState := sNew })
    | (.ok out, sNew) =>
        let st2 := { st1 with
          decoderState := sNew
          output_buf := out
          input_buf := []
          output_pos := 0 }
        (.ok (st2.output_buf.drop st2.output_pos), st2)
  else
    (.ok (st.output_buf.drop st.output_pos), st)

/-- Embedding of `BufRead::consume` for `CodecReadBuffer`
(src/reader.rs lines 118-120): advance the cursor, clamped to the chunk
length. -/
def consume {σ : Type} (st : CodecReadBuffer σ) (amt : Nat) : CodecReadBuffer σ :=
  { st with output_pos := min (st.output_pos + amt) st.output_buf.length }

/-- Embedding of `Read::read` for `CodecReadBuffer` (src/reader.rs
lines 87-97): peek, copy as much as fits into a destination of length
`destLen`, consume that much, and return the count. -/
def read {σ : Type} (d : ByteDecoder σ) (st : CodecReadBuffer σ) (destLen : Nat) :
    Except IOError Nat × CodecReadBuffer σ :=
  match fill_buf d st with
  | (.error e, st1) => (.error e, st1)
  | (.ok rem, st1) =>
    let nread := min destLen rem.length
    (.ok nread, consume st1 nread)

/-- One pass of `Read::read_to_end` over the transcoder: repeatedly peek
a decoded chunk, append it and consume it, stopping at the first empty
chunk (which the standard read loop takes as end-of-stream) or error.
Fuel bounds the recursion; `readToEnd` supplies enough fuel that the
bound is never hit on the inputs considered. -/
def readToEndAux {σ : Type} (d : ByteDecoder σ) :
    Nat → CodecReadBuffer σ → List Nat → Except IOError (List Nat) × CodecReadBuffer σ
  | 0, st, _ => (.error .fuelExhausted, st)
  | fuel + 1, st, acc =>
    match fill_buf d st with
    | (.error e, st1) => (.error e, st1)
    | (.ok [], st1) => (.ok acc, st1)
    | (.ok rem, st1) => readToEndAux d fuel (consume st1 rem.length) (acc ++ rem)

/-- Reading the transcoder to the end, as the repository's tests do with
`read_to_string`. -/
def readToEnd {σ : Type} (d : ByteDecoder σ) (st : CodecReadBuffer σ) :
    Except IOError (List Nat) × CodecReadBuffer σ :=
  readToEndAux d (st.inner.length + st.output_buf.length + 2) st []

/-- Construct for a label and read everything, the usage pattern of the
repository's tests (`CodecReadBuffer::for_encoding(...)` followed by
`read_to_string`). -/
def transcodeToEnd {σ : Type} (resolve : String → Option (ByteDecoder σ))
    (encoding_name : String) (capacity : Nat) (source : List Nat) :
    Except IOError (List Nat) :=
  match for_encoding_with_capacity resolve source encoding_name capacity with
  | .error e => .error e
  | .ok (d, st) => (readToEnd d st).1

/-- State of the external UTF-8 decoder: the lead and continuation bytes
of the character in progress, and how many continuation bytes are still
required (0 when between characters). -/
structure Utf8State where
  pending : List Nat
  need : Nat
deriving DecidableEq, Repr

/-- Whether byte `b` is an acceptable continuation byte given the bytes
collected so far, with the strict second-byte ranges of a conforming
UTF-8 decoder (no overlong forms, no surrogates, nothing above
U+10FFFF), as `encoding_rs` enforces. -/
def utf8ContOk (pending : List Nat) (b : Nat) : Bool :=
  match pending with
  | [first] =>
    if first = 0xE0 then decide (0xA0 ≤ b ∧ b ≤ 0xBF)
    else if first = 0xED then decide (0x80 ≤ b ∧ b ≤ 0x9F)
    else if first = 0xF0 then decide (0x90 ≤ b ∧ b ≤ 0xBF)
    else if first = 0xF4 then decide (0x80 ≤ b ∧ b ≤ 0x8F)
    else decide (0x80 ≤ b ∧ b ≤ 0xBF)
  | _ => decide (0x80 ≤ b ∧ b ≤ 0xBF)

/-- One step of the UTF-8 decoder without replacement and without BOM
handling.  A completed character is emitted as its own bytes, since
transcoding valid UTF-8 to UTF-8 is the identity; a byte that can start
or continue no character is malformed. -/
def utf8Step (s : Utf8State) (b : Nat) : Option (Utf8State × List Nat) :=
  if s.need = 0 then
    if b < 0x80 then some (⟨[], 0⟩, [b])
    else if 0xC2 ≤ b ∧ b ≤ 0xDF then some (⟨[b], 1⟩, [])
    else if 0xE0 ≤ b ∧ b ≤ 0xEF then some (⟨[b], 2⟩, [])
    else if 0xF0 ≤ b ∧ b ≤ 0xF4 then some (⟨[b], 3⟩, [])
    else none
  else
    if utf8ContOk s.pending b then
      if s.need = 1 then some (⟨[], 0⟩, s.pending ++ [b])
      else some (⟨s.pending ++ [b], s.need - 1⟩, [])
    else none

/-- The UTF-8 decoder the constructor binds for the label "utf-8"
(`for_label_no_replacement` followed by
`new_decoder_without_bom_handling`). -/
def utf8Decoder : ByteDecoder Utf8State := ⟨⟨[], 0⟩, utf8Step⟩

/-- Resolution table restricted to the one label the concrete runs use;
stands in for the external WHATWG label table of `encoding_rs`. -/
def utf8Table : String → Option (ByteDecoder Utf8State) :=
  fun name => if name = "utf-8" then some utf8Decoder else none

/-- The UTF-8 encoding of U+FEFF, the zero-width no-break space that a
byte-order mark decodes to when BOM handling is off. -/
def utf8FEFF : List Nat := [0xEF, 0xBB, 0xBF]

/-- Embedding of the detection pre-read of
`EncodingToUtf8Reader::with_capacity` (src/lib.rs lines 76-88).
`Vec::with_capacity(capacity)` produces a vector of logical length 0;
`inner.read(&mut detection_buf)` therefore receives a zero-length slice
and copies `min 0 (length source)` bytes; the detector is then handed
`&detection_buf[0 .. min 64 (length detection_buf)]`.  Returns the slice
given to the detector, the detection buffer afterwards, and the source
bytes still undelivered. -/
def detectionPreRead (capacity : Nat) (source : List Nat) :
    List Nat × List Nat × List Nat :=
  let detection_buf : List Nat := (List.replicate capacity 0).take 0
  let n := min detection_buf.length source.length
  let detection_buf2 := source.take n ++ detection_buf.drop n
  let detectorInput := detection_buf2.take (min 64 detection_buf2.length)
  (detectorInput, detection_buf2, source.drop n)

/-- End-of-stream configuration of the transcoder: the source has no
bytes left, the input buffer was fully consumed by the last decode, and
the cursor has reached the end of the last decoded chunk. -/
def atEOS {σ : Type} (st : CodecReadBuffer σ) : Prop :=
  st.inner = [] ∧ st.input_buf = [] ∧ st.output_buf.length ≤ st.output_pos

/-- Run `n` successive `read` calls, each with a destination of length
`destLen`, collecting the returned counts; an error aborts the run. -/
def readIter {σ : Type} (d : ByteDecoder σ) :
    Nat → Nat → CodecReadBuffer σ → Except IOError (List Nat) × CodecReadBuffer σ
  | 0, _, st => (.ok [], st)
  | n + 1, destLen, st =>
    match read d st destLen with
    | (.error e, st1) => (.error e, st1)
    | (.ok m, st1) =>
      match readIter d n destLen st1 with
      | (.ok ms, st2) => (.ok (m :: ms), st2)
      | (.error e, st2) => (.error e, st2)

/-- Decoding a concatenation composes: when the first part decodes
cleanly, decoding continues into the second part from the reached state,
and the outputs concatenate.  This is the state-threading fact behind
split multi-byte characters. -/
theorem decodeChunk_append_ok {σ : Type} (d : ByteDecoder σ) (a b : List Nat)
    (s s1 s2 : σ) (oa ob : List Nat)
    (h1 : decodeChunk d s a = .ok (s1, oa))
    (h2 : decodeChunk d s1 b = .ok (s2, ob)) :
    decodeChunk d s (a ++ b) = .ok (s2, oa ++ ob) := by
  induction a generalizing s oa with
  | nil =>
    simp only [decodeChunk] at h1
    obtain ⟨rfl, rfl⟩ := Prod.mk.injEq .. ▸ Except.ok.inj h1
    simpa using h2
  | cons x a ih =>
    simp only [decodeChunk, List.cons_append, List.append_eq] at h1 ⊢
    cases hstep : d.step s x with
    | none =>
      simp only [hstep] at h1
      exact Except.noConfusion h1
    | some p =>
      obtain ⟨s3, out⟩ := p
      simp only [hstep] at h1 ⊢
      cases hrec : decodeChunk d s3 a with
      | error e =>
        simp only [hrec] at h1
        exact Except.noConfusion h1
      | ok q =>
        obtain ⟨s4, out2⟩ := q
        simp only [hrec, Except.ok.injEq, Prod.mk.injEq] at h1
        obtain ⟨rfl, rfl⟩ := h1
        rw [ih s3 out2 hrec]
        simp

/-- When the input buffer is empty, `fill_input_buf` pulls exactly
`min capacity remaining` bytes from the source: the resized vector is
overwritten on that prefix and trimmed back, leaving precisely the bytes
the source returned. -/
theorem fill_input_buf_empty {σ : Type} (st : CodecReadBuffer σ)
    (h : st.input_buf = []) :
    fill_input_buf st
      = (min st.input_cap st.inner.length,
         { st with
             input_buf := st.inner.take (min st.input_cap st.inner.length)
             inner := st.inner.drop (min st.input_cap st.inner.length) }) := by
  obtain ⟨inner, ds, ib, cap, ob, pos⟩ := st
  simp only at h
  subst h
  simp only [fill_input_buf, List.isEmpty_nil, if_true, List.length_nil,
    List.nil_append, Nat.sub_zero]
  rcases Nat.eq_zero_or_pos cap with hc | hc
  · subst hc
    simp [List.take_nil]
  · rw [if_pos hc]
    simp only [List.length_replicate]
    congr 1
    have hmin : min cap inner.length ≤ inner.length := Nat.min_le_right ..
    have hlen : (inner.take (min cap inner.length)).length = min cap inner.length := by
      simp [List.length_take, Nat.min_eq_left hmin]
    congr 1
    rw [List.take_left' hlen]

/-- The source puller never touches the output buffer or the cursor. -/
theorem fill_input_buf_preserves {σ : Type} (st : CodecReadBuffer σ) :
    ((fill_input_buf st).2).output_buf = st.output_buf
  ∧ ((fill_input_buf st).2).output_pos = st.output_pos
  ∧ ((fill_input_buf st).2).decoderState = st.decoderState := by
  simp only [fill_input_buf]
  split <;> simp

/-- At end-of-stream, a peek pulls zero bytes, decodes the empty chunk
to the empty string, and returns the empty slice, leaving the component
at end-of-stream again. -/
theorem fill_buf_eos {σ : Type} (d : ByteDecoder σ) (st : CodecReadBuffer σ)
    (h : atEOS st) :
    fill_buf d st = (.ok [], { st with output_buf := [], output_pos := 0 })
  ∧ atEOS ({ st with output_buf := [], output_pos := 0 } : CodecReadBuffer σ) := by
  obtain ⟨inner, ds, ib, cap, ob, pos⟩ := st
  obtain ⟨h1, h2, h3⟩ := h
  simp only at h1 h2 h3
  subst h1; subst h2
  refine ⟨?_, rfl, rfl, Nat.zero_le 0⟩
  simp [fill_buf, fill_input_buf, decoderHelper, decodeChunk, h3]

/-- Consuming never leaves end-of-stream. -/
theorem atEOS_consume {σ : Type} (st : CodecReadBuffer σ) (amt : Nat)
    (h : atEOS st) : atEOS (consume st amt) := by
  obtain ⟨h1, h2, h3⟩ := h
  exact ⟨h1, h2, Nat.le_min.mpr ⟨Nat.le_trans h3 (Nat.le_add_right ..), Nat.le_refl _⟩⟩

/-- At end-of-stream, a `read` into any destination returns the count 0
and leaves the component at end-of-stream again. -/
theorem read_eos {σ : Type} (d : ByteDecoder σ) (st : CodecReadBuffer σ)
    (destLen : Nat) (h : atEOS st) :
    (read d st destLen).1 = .ok 0 ∧ atEOS (read d st destLen).2 := by
  obtain ⟨hfb, heos⟩ := fill_buf_eos d st h
  constructor
  · simp [read, hfb]
  · simp only [read, hfb]
    exact atEOS_consume _ _ heos

/-- C2: for every buffered chunk that is invalid under the bound
encoding (the decoder stops with a malformed sequence), `decoder_helper`
returns a malformed-input error carrying the raw bytes of the chunk and
the byte offset at which decoding stopped, never an `ok` result with a
substituted replacement character; for every valid chunk it returns the
decoded string with no error. -/
theorem decoder_helper_malformed_reporting {σ : Type} (d : ByteDecoder σ)
    (s : σ) (input : List Nat) :
    (∀ sf k, decodeChunk d s input = .error (sf, k) →
        decoderHelper d s input = (.error (.malformedInput input k), sf))
  ∧ (∀ sNew out, decodeChunk d s input = .ok (sNew, out) →
        decoderHelper d s input = (.ok out, sNew)) := by
  constructor <;> intro a b h <;> simp [decoderHelper, h]

/-- Witness for C2: the unpaired continuation byte 0x80 is reported as
malformed at offset 1 with the offending bytes attached, and the valid
chunk 0x61 decodes without error. -/
theorem decoder_helper_malformed_reporting_witness :
    decoderHelper utf8Decoder utf8Decoder.init [0x80]
      = (.error (.malformedInput [0x80] 1), utf8Decoder.init)
  ∧ decoderHelper utf8Decoder utf8Decoder.init [0x61]
      = (.ok [0x61], utf8Decoder.init) :=
  ⟨(decoder_helper_malformed_reporting utf8Decoder utf8Decoder.init [0x80]).1
      utf8Decoder.init 1 rfl,
   (decoder_helper_malformed_reporting utf8Decoder utf8Decoder.init [0x61]).2
      utf8Decoder.init [0x61] rfl⟩

/-- C3: an encoding label the external library cannot resolve fails at
construction with the "Unrecognized input encoding name" error that
names the offending label, and the outcome is the same for every
underlying source: the constructor performs no read. -/
theorem unrecognized_encoding_rejected {σ : Type}
    (resolve : String → Option (ByteDecoder σ)) (inner : List Nat)
    (name : String) (buf : List Nat) (cap : Nat)
    (h : resolve name = none) :
    for_encoding_with_initial_buffer resolve inner name buf cap
        = .error (.unrecognizedEncoding name)
  ∧ (IOError.unrecognizedEncoding name).message
        = "Unrecognized input encoding name: " ++ name
  ∧ (∀ inner2, for_encoding_with_initial_buffer resolve inner2 name buf cap
        = for_encoding_with_initial_buffer resolve inner name buf cap) := by
  refine ⟨?_, rfl, fun inner2 => ?_⟩ <;>
    simp [for_encoding_with_initial_buffer, h]

/-- Witness for C3: the label "bogus" is rejected with the error naming
it, regardless of the source contents. -/
theorem unrecognized_encoding_rejected_witness :
    for_encoding_with_initial_buffer utf8Table [0x61] "bogus" [] 4096
        = .error (.unrecognizedEncoding "bogus")
  ∧ for_encoding_with_initial_buffer utf8Table [] "bogus" [] 4096
        = for_encoding_with_initial_buffer utf8Table [0x61] "bogus" [] 4096 :=
  ⟨(unrecognized_encoding_rejected utf8Table [0x61] "bogus" [] 4096 rfl).1,
   (unrecognized_encoding_rejected utf8Table [0x61] "bogus" [] 4096 rfl).2.2 []⟩

/-- C5: `consume` advances the cursor by the given amount clamped to the
chunk length, saturating at the chunk boundary, so the cursor invariant
`output_pos ≤ length output_buf` holds after every call; the chunk
itself is untouched. -/
theorem consume_clamps {σ : Type} (st : CodecReadBuffer σ) (amt : Nat) :
    (consume st amt).output_pos = min (st.output_pos + amt) st.output_buf.length
  ∧ (consume st amt).output_pos ≤ (consume st amt).output_buf.length
  ∧ (consume st amt).output_buf = st.output_buf :=
  ⟨rfl, Nat.min_le_right .., rfl⟩

/-- C7 fails on the code: the detection pre-read of
`EncodingToUtf8Reader::with_capacity` reads into a vector whose logical
length is zero, so for every capacity and every source it reads zero
bytes, hands the statistical detector an empty slice instead of the
first bytes of the source, and leaves the source untouched. -/
theorem detection_pre_read_empty (capacity : Nat) (source : List Nat) :
    detectionPreRead capacity source = ([], [], source) := by
  simp [detectionPreRead]

/-- C8: when the input buffer still holds undecoded bytes,
`fill_input_buf` is a no-op returning zero: the state, and in particular
the underlying source, is untouched, so no second read is accumulated. -/
theorem fill_input_buf_noop {σ : Type} (st : CodecReadBuffer σ)
    (h : st.input_buf ≠ []) :
    fill_input_buf st = (0, st) := by
  simp [fill_input_buf, h]

/-- Witness for C8: with one undecoded byte buffered, the pull is a
no-op. -/
theorem fill_input_buf_noop_witness :
    fill_input_buf
        (⟨[0x62], utf8Decoder.init, [0x61], 4, [], 0⟩ : CodecReadBuffer Utf8State)
      = (0, ⟨[0x62], utf8Decoder.init, [0x61], 4, [], 0⟩) :=
  fill_input_buf_noop _ (by simp)

/-- C9: when `fill_input_buf` pulls, the logical length of the input
buffer afterwards equals exactly the number of bytes the source
returned, namely `min capacity remaining` (possibly fewer than the
capacity, including zero at end-of-stream), and the buffer holds exactly
those bytes, never trailing zero padding from the resize to capacity. -/
theorem fill_input_buf_exact {σ : Type} (st : CodecReadBuffer σ)
    (h : st.input_buf = []) :
    (fill_input_buf st).1 = min st.input_cap st.inner.length
  ∧ ((fill_input_buf st).2).input_buf
        = st.inner.take (min st.input_cap st.inner.length)
  ∧ ((fill_input_buf st).2).input_buf.length = (fill_input_buf st).1
  ∧ ((fill_input_buf st).2).inner
        = st.inner.drop (min st.input_cap st.inner.length) := by
  rw [fill_input_buf_empty st h]
  refine ⟨rfl, rfl, ?_, rfl⟩
  simp [List.length_take, Nat.min_le_right (st.input_cap) (st.inner.length),
    Nat.min_eq_left]

/-- Witness for C9: capacity 4 against a 2-byte source pulls exactly the
2 bytes the source can return, with no padding. -/
theorem fill_input_buf_exact_witness :
    (fill_input_buf
        (⟨[0x61, 0x62], utf8Decoder.init, [], 4, [], 0⟩ : CodecReadBuffer Utf8State)).1
      = 2
  ∧ ((fill_input_buf
        (⟨[0x61, 0x62], utf8Decoder.init, [], 4, [], 0⟩ : CodecReadBuffer Utf8State)).2).input_buf
      = [0x61, 0x62] := by
  have h := fill_input_buf_exact
    (⟨[0x61, 0x62], utf8Decoder.init, [], 4, [], 0⟩ : CodecReadBuffer Utf8State) rfl
  exact ⟨h.1, h.2.1⟩

/-- C4: once the source is exhausted and the last decoded chunk has been
fully consumed, every subsequent peek returns the empty slice and every
one of any number of subsequent reads returns the count 0, all without
error. -/
theorem eos_idempotent {σ : Type} (d : ByteDecoder σ) (st : CodecReadBuffer σ)
    (n destLen : Nat) (h : atEOS st) :
    (fill_buf d st).1 = .ok []
  ∧ atEOS (fill_buf d st).2
  ∧ (readIter d n destLen st).1 = .ok (List.replicate n 0) := by
  refine ⟨by rw [(fill_buf_eos d st h).1],
    by rw [(fill_buf_eos d st h).1]; exact (fill_buf_eos d st h).2, ?_⟩
  induction n generalizing st with
  | zero => simp [readIter]
  | succ n ih =>
    obtain ⟨h1, h2⟩ := read_eos d st destLen h
    simp only [readIter]
    rcases hr : read d st destLen with ⟨res, st2⟩
    rw [hr] at h1 h2
    simp only at h1 h2
    subst h1
    rcases hri : readIter d n destLen st2 with ⟨res2, st3⟩
    have := ih st2 h2
    rw [hri] at this
    simp only at this
    subst this
    simp [hri, List.replicate_succ]

/-- Witness for C4: at a concrete end-of-stream state, a peek yields the
empty slice and three successive reads all return 0. -/
theorem eos_idempotent_witness :
    (fill_buf utf8Decoder
        (⟨[], utf8Decoder.init, [], 4, [], 0⟩ : CodecReadBuffer Utf8State)).1 = .ok []
  ∧ atEOS (fill_buf utf8Decoder
        (⟨[], utf8Decoder.init, [], 4, [], 0⟩ : CodecReadBuffer Utf8State)).2
  ∧ (readIter utf8Decoder 3 10
        (⟨[], utf8Decoder.init, [], 4, [], 0⟩ : CodecReadBuffer Utf8State)).1
      = .ok (List.replicate 3 0) :=
  eos_idempotent utf8Decoder _ 3 10 ⟨rfl, rfl, Nat.le_refl 0⟩

/-- C6: with BOM handling off, a source beginning with the byte-order
mark of the bound encoding decodes to the UTF-8 bytes of U+FEFF followed
by the decoding of the rest: the BOM is not stripped and appears
verbatim at the start of the output.  The first hypothesis states what
`new_decoder_without_bom_handling` guarantees for the bound encoding:
its BOM decodes to U+FEFF and leaves the decoder in the start state. -/
theorem bom_preserved {σ : Type} (d : ByteDecoder σ)
    (bom rest out : List Nat) (s2 : σ)
    (hbom : decodeChunk d d.init bom = .ok (d.init, utf8FEFF))
    (hrest : decodeChunk d d.init rest = .ok (s2, out)) :
    decoderHelper d d.init (bom ++ rest) = (.ok (utf8FEFF ++ out), s2) := by
  have hall := decodeChunk_append_ok d bom rest d.init d.init s2 utf8FEFF out hbom hrest
  simp [decoderHelper, hall]

/-- Witness for C6: the UTF-8 BOM EF BB BF followed by "a" decodes to
EF BB BF 61, the BOM kept verbatim. -/
theorem bom_preserved_witness :
    decoderHelper utf8Decoder utf8Decoder.init ([0xEF, 0xBB, 0xBF] ++ [0x61])
      = (.ok (utf8FEFF ++ [0x61]), utf8Decoder.init) :=
  bom_preserved utf8Decoder [0xEF, 0xBB, 0xBF] [0x61] [0x61]
    utf8Decoder.init rfl rfl

/-- C10: when `fill_buf` fails on a malformed chunk, the output buffer
and the cursor keep their previous values and the input buffer is not
cleared: it still holds the chunk just pulled, which is exactly the byte
sequence carried inside the returned error. -/
theorem fill_buf_error_preserves {σ : Type} (d : ByteDecoder σ)
    (st st2 : CodecReadBuffer σ) (e : IOError)
    (h : fill_buf d st = (.error e, st2)) :
    st2.output_buf = st.output_buf
  ∧ st2.output_pos = st.output_pos
  ∧ st2.input_buf = ((fill_input_buf st).2).input_buf
  ∧ ∃ k, e = .inputDecodingError (.malformedInput st2.input_buf k) := by
  obtain ⟨hob, hop, _⟩ := fill_input_buf_preserves st
  unfold fill_buf at h
  by_cases hc : st.output_buf.length ≤ st.output_pos
  · rw [if_pos hc] at h
    dsimp only at h
    rcases hdh : decoderHelper d ((fill_input_buf st).2).decoderState
        ((fill_input_buf st).2).input_buf with ⟨res, sNew⟩
    rw [hdh] at h
    cases res with
    | ok out => simp at h
    | error e2 =>
      simp only [Prod.mk.injEq, Except.error.injEq] at h
      obtain ⟨he, hst⟩ := h
      subst he
      subst hst
      unfold decoderHelper at hdh
      rcases hdc : decodeChunk d ((fill_input_buf st).2).decoderState
          ((fill_input_buf st).2).input_buf with ⟨sf, k⟩ | q
      · rw [hdc] at hdh
        simp only [Prod.mk.injEq, Except.error.injEq] at hdh
        exact ⟨hob, hop, rfl, k, by rw [hdh.1]⟩
      · rw [hdc] at hdh
        simp at hdh
  · rw [if_neg hc] at h
    simp at h

/-- Witness for C10: pulling the lone malformed byte 0x80 (capacity 1,
previous chunk "a" fully consumed) fails, the error carries that byte,
the byte stays in the input buffer, and the previous chunk and cursor
survive. -/
theorem fill_buf_error_preserves_witness :
    (⟨[], ⟨[], 0⟩, [0x80], 1, [0x61], 1⟩ : CodecReadBuffer Utf8State).output_buf
        = (⟨[0x80], ⟨[], 0⟩, [], 1, [0x61], 1⟩ : CodecReadBuffer Utf8State).output_buf
  ∧ (⟨[], ⟨[], 0⟩, [0x80], 1, [0x61], 1⟩ : CodecReadBuffer Utf8State).output_pos
        = (⟨[0x80], ⟨[], 0⟩, [], 1, [0x61], 1⟩ : CodecReadBuffer Utf8State).output_pos
  ∧ (⟨[], ⟨[], 0⟩, [0x80], 1, [0x61], 1⟩ : CodecReadBuffer Utf8State).input_buf
        = ((fill_input_buf
            (⟨[0x80], ⟨[], 0⟩, [], 1, [0x61], 1⟩ : CodecReadBuffer Utf8State)).2).input_buf
  ∧ ∃ k, IOError.inputDecodingError (.malformedInput [0x80] 1)
        = .inputDecodingError (.malformedInput
            (⟨[], ⟨[], 0⟩, [0x80], 1, [0x61], 1⟩ :
              CodecReadBuffer Utf8State).input_buf k) :=
  fill_buf_error_preserves utf8Decoder
    ⟨[0x80], ⟨[], 0⟩, [], 1, [0x61], 1⟩
    ⟨[], ⟨[], 0⟩, [0x80], 1, [0x61], 1⟩
    (.inputDecodingError (.malformedInput [0x80] 1)) rfl

/-- Reading the two UTF-8 bytes of U+00E9 to the end with any capacity
of at least 2 yields exactly those two bytes: the whole character fits
in one pull, decodes in one step, and the following peek sees the
exhausted source. -/
theorem readToEnd_two_byte (cap : Nat) (h2 : 2 ≤ cap) :
    (readToEnd utf8Decoder
        (⟨[0xC3, 0xA9], ⟨[], 0⟩, [], cap, [], 0⟩ : CodecReadBuffer Utf8State)).1
      = .ok [0xC3, 0xA9] := by
  have hmin : min cap ([0xC3, 0xA9] : List Nat).length = 2 := by
    simpa using Nat.min_eq_right h2
  have hf1 : fill_input_buf
      (⟨[0xC3, 0xA9], ⟨[], 0⟩, [], cap, [], 0⟩ : CodecReadBuffer Utf8State)
      = (2, ⟨[], ⟨[], 0⟩, [0xC3, 0xA9], cap, [], 0⟩) := by
    rw [fill_input_buf_empty
      (⟨[0xC3, 0xA9], ⟨[], 0⟩, [], cap, [], 0⟩ : CodecReadBuffer Utf8State) rfl]
    simp only at hmin ⊢
    rw [hmin]
    rfl
  have hf2 : fill_input_buf
      (⟨[], ⟨[], 0⟩, [], cap, [0xC3, 0xA9], 2⟩ : CodecReadBuffer Utf8State)
      = (0, ⟨[], ⟨[], 0⟩, [], cap, [0xC3, 0xA9], 2⟩) := by
    rw [fill_input_buf_empty
      (⟨[], ⟨[], 0⟩, [], cap, [0xC3, 0xA9], 2⟩ : CodecReadBuffer Utf8State) rfl]
    simp
  have hb1 : fill_buf utf8Decoder
      (⟨[0xC3, 0xA9], ⟨[], 0⟩, [], cap, [], 0⟩ : CodecReadBuffer Utf8State)
      = (.ok [0xC3, 0xA9], ⟨[], ⟨[], 0⟩, [], cap, [0xC3, 0xA9], 0⟩) := by
    simp only [fill_buf, hf1]
    rfl
  have hb2 : fill_buf utf8Decoder
      (⟨[], ⟨[], 0⟩, [], cap, [0xC3, 0xA9], 2⟩ : CodecReadBuffer Utf8State)
      = (.ok [], ⟨[], ⟨[], 0⟩, [], cap, [], 0⟩) := by
    simp only [fill_buf, hf2]
    rfl
  have haux : ∀ (acc : List Nat) (fuel : Nat),
      (readToEndAux utf8Decoder (fuel + 2)
          (⟨[0xC3, 0xA9], ⟨[], 0⟩, [], cap, [], 0⟩ : CodecReadBuffer Utf8State) acc).1
        = .ok (acc ++ [0xC3, 0xA9]) := by
    intro acc fuel
    simp only [show fuel + 2 = (fuel + 1) + 1 from rfl, readToEndAux, hb1, hb2,
      consume, List.length_cons, List.length_nil, Nat.min_self]
  simpa using haux [] 2

/-- C1 fails on the code: transcoding the two UTF-8 bytes of the
character U+00E9 with an input-buffer capacity of 1 byte produces the
empty output, while capacity 4096 produces the two bytes themselves.
With capacity 1 the first peek pulls only the lead byte, the decoder
stores it as partial-character state and emits nothing, and `fill_buf`
hands the empty slice to the standard read loop, which takes an empty
peek as end-of-stream and stops; the carried state is never revisited,
so the outputs differ even though the decoder state does persist. -/
theorem chunk_size_dependence_bug :
    transcodeToEnd utf8Table "utf-8" 1 [0xC3, 0xA9] = .ok []
  ∧ transcodeToEnd utf8Table "utf-8" 4096 [0xC3, 0xA9] = .ok [0xC3, 0xA9] :=
  ⟨rfl, readToEnd_two_byte 4096 (by norm_num)⟩

end EncodingBuf
